import Mathlib

/-!
Shallow embedding of the pricing-resolution-and-caching subsystem of
`src/steamApp.py` (the `/value` Flask route and its helpers).

Modelling conventions:
* Decimal amounts and time are exact rationals (`ℚ`); `datetime.utcnow()` /
  SQL `NOW()` become an explicit `now : ℚ` parameter, and TTL expiries are
  `now + ttl` as in `set_cached_value` / `set_item_cache`.
* The two MySQL tables `item_prices` and `inventory_values` become the two
  finite-map fields of `Db`; `REPLACE INTO` is modelled as an overwrite of
  the key, and the `expires_at > NOW()` read guard as a strict comparison.
* External HTTP traffic is an oracle: each call site consumes a stream
  `ℕ → RawOutcome α` giving, per attempt, either a transport-level exception
  from `requests.get` or a response with a status code and an optional parsed
  body (`none` body on status 200 models a body on which `r.json()` raises).
* Observable side effects (each `requests.get` call, each `time.sleep`) are
  collected in a `List Effect` trace; the post-fetch `random.uniform(0.3, 0.8)`
  sleep in `get_item_price` is traced as `Effect.jitter j` where `j` is the
  sampled value, carried by the oracle.
* Python `float()` applied to a cleaned price string is modelled abstractly by
  `PyStr`: a string is empty (falsy), parses to a rational, or fails to parse.
* The URL-parsing prelude of the route (`trade_url` extraction, lines 133-136)
  is the inbound request layer, excluded from the core; `value` here takes the
  already-extracted `steamid`.
-/

set_option autoImplicit false

namespace SteamApp

/-- Distinguishes the three `requests.get` call sites of the program. -/
inductive Site
  | csfloat
  | steamMarket
  | inventory
deriving DecidableEq, Repr

/-- One observable side effect: an HTTP GET against a site, a backoff sleep
inside `safe_request`, or the post-fetch jitter sleep in `get_item_price`. -/
inductive Effect
  | http (site : Site)
  | sleep (d : ℚ)
  | jitter (d : ℚ)
deriving DecidableEq, Repr

/-- Predicate for counting HTTP attempts in a trace. -/
def Effect.isHttp : Effect → Bool
  | .http _ => true
  | _ => false

/-- Outcome of one `requests.get` attempt, as supplied by the environment:
either the call raises `requests.RequestException` (timeout, connection
error), or a response arrives with a status code and, for its body, the
parsed JSON value (`none` meaning `r.json()` raises on it). -/
inductive RawOutcome (α : Type)
  | getRaises
  | resp (status : ℕ) (body : Option α)

/-- Python exceptions relevant inside the `try` of `safe_request`. -/
inductive PyExn
  | requestError
  | jsonDecodeError
deriving DecidableEq, Repr

/-- Control outcome of one loop iteration of `safe_request`. -/
inductive Ctl (α : Type)
  | ret (x : α)
  | brk
  | continueRetry

/-- The body of the `try` in `safe_request` (lines 71-78): exceptions
propagate out of it as `Except.error`. A 200 with a parsable body returns it;
a 200 whose body `r.json()` cannot decode raises; 429 falls to the
sleep-and-retry arm; any other status breaks out of the loop. -/
def tryBody {α : Type} (o : RawOutcome α) : Except PyExn (Ctl α) :=
  match o with
  | .getRaises => .error .requestError
  | .resp s b =>
    if s = 200 then
      match b with
      | some p => .ok (.ret p)
      | none => .error .jsonDecodeError
    else if s = 429 then .ok .continueRetry
    else .ok .brk

/-- Which exceptions the `except requests.RequestException` clause (line 79)
catches. `requests.get` failures are `RequestException`s, and since
requests 2.27 `r.json()` raises `requests.exceptions.JSONDecodeError`, also a
`RequestException` subclass — so both model exceptions are caught. -/
def exceptClauseCatches : PyExn → Bool := fun _ => true

/-- The retry loop of `safe_request`, iterating over the attempt indices
`range(retries)` (Python's 0-based `attempt`). Exceptions the handler does
not catch surface as `Except.error`; every attempt first traces its
`requests.get` call. On 429 and on caught exceptions the loop sleeps
`backoff * (attempt + 1)` and retries; falling off the loop yields `none`. -/
def safeRequestLoop {α : Type} (site : Site) (w : ℕ → RawOutcome α) (backoff : ℚ)
    (catches : PyExn → Bool) : List ℕ → Except PyExn (Option α) × List Effect
  | [] => (.ok none, [])
  | k :: rest =>
    match tryBody (w k) with
    | .ok (.ret p) => (.ok (some p), [.http site])
    | .ok .brk => (.ok none, [.http site])
    | .ok .continueRetry =>
      let r := safeRequestLoop site w backoff catches rest
      (r.1, .http site :: .sleep (backoff * ((k : ℚ) + 1)) :: r.2)
    | .error e =>
      if catches e then
        let r := safeRequestLoop site w backoff catches rest
        (r.1, .http site :: .sleep (backoff * ((k : ℚ) + 1)) :: r.2)
      else (.error e, [.http site])

/-- `safe_request(url, headers, retries, backoff)` (lines 68-81): returns the
parsed payload of the first 200 response, or `None` once attempts are
exhausted or a non-retryable status is hit. The Python defaults are
`retries=3, backoff=1.5`; call sites below pass them explicitly. -/
def safe_request {α : Type} (site : Site) (w : ℕ → RawOutcome α) (retries : ℕ)
    (backoff : ℚ) : Option α × List Effect :=
  match safeRequestLoop site w backoff exceptClauseCatches (List.range retries) with
  | (.ok v, effs) => (v, effs)
  | (.error _, effs) => (none, effs)

/-- A JSON value in a price field, as seen by Python's `float()`: either
numeric (including numeric strings), or a value on which `float()` raises. -/
inductive PyVal
  | num (q : ℚ)
  | nonNumeric
deriving DecidableEq

/-- One listing object of the CSFloat response: its optional `price` field. -/
structure CsListing where
  price : Option PyVal
deriving DecidableEq

/-- Parsed JSON body of the CSFloat listings endpoint: either not a list
(`isinstance(data, list)` fails) or a list of listings. -/
inductive CsJson
  | notList
  | jlist (items : List CsListing)
deriving DecidableEq

/-- `get_csfloat_price(market_hash)` (lines 86-97): takes the first listing's
`price` (default 0), divides by 100; any missing/empty/unparsable data
collapses to 0.0. Returns the price together with the HTTP/sleep trace. -/
def get_csfloat_price (w : ℕ → RawOutcome CsJson) : ℚ × List Effect :=
  let r := safe_request Site.csfloat w 3 (3 / 2)
  match r.1 with
  | some (.jlist (l :: _)) =>
    match l.price.getD (.num 0) with
    | .num q => (q / 100, r.2)
    | .nonNumeric => (0, r.2)
  | _ => (0, r.2)

/-- A Python price string after the `$`/`,` stripping of line 106, as seen by
`float()`: empty (falsy), parses to a rational, or raises `ValueError`. -/
inductive PyStr
  | empty
  | parses (q : ℚ)
  | noparse
deriving DecidableEq

/-- Python truthiness of an optional string. -/
def pyTruthy : Option PyStr → Bool
  | some .empty => false
  | some _ => true
  | none => false

/-- Python `a or b` on optional strings. -/
def pyOr (a b : Option PyStr) : Option PyStr :=
  if pyTruthy a then a else b

/-- Parsed JSON body of the Steam price-overview endpoint. `success` is the
truthiness of `data.get("success")` (absent means falsy). -/
structure SteamJson where
  success : Bool
  lowest_price : Option PyStr
  median_price : Option PyStr
deriving DecidableEq

/-- `get_steam_market_price(market_hash)` (lines 99-111): reads
`lowest_price or median_price`, strips symbols and parses; any failure path
returns 0.0. -/
def get_steam_market_price (w : ℕ → RawOutcome SteamJson) : ℚ × List Effect :=
  let r := safe_request Site.steamMarket w 3 (3 / 2)
  match r.1 with
  | some d =>
    if d.success then
      match pyOr d.lowest_price d.median_price with
      | some (.parses q) => (q, r.2)
      | _ => (0, r.2)
    else (0, r.2)
  | none => (0, r.2)

/-- The database state: the `item_prices` table (market_hash ↦ price,
expires_at) and the `inventory_values` table (steamid ↦ value, expires_at). -/
structure Db where
  itemPrices : String → Option (ℚ × ℚ)
  inventoryValues : String → Option (ℚ × ℚ)

/-- `get_cached_value(db, steamid)` (lines 28-32): the row's value if
`expires_at > NOW()`, else `None`. -/
def get_cached_value (db : Db) (now : ℚ) (steamid : String) : Option ℚ :=
  match db.inventoryValues steamid with
  | some pe => if now < pe.2 then some pe.1 else none
  | none => none

/-- `set_cached_value(db, steamid, value, ttl=300)` (lines 34-40):
`REPLACE INTO` with absolute expiry `now + ttl`. -/
def set_cached_value (db : Db) (now : ℚ) (steamid : String) (v : ℚ) (ttl : ℚ) : Db :=
  { db with inventoryValues := fun k => if k = steamid then some (v, now + ttl) else db.inventoryValues k }

/-- `get_item_cache(db, market_hash)` (lines 42-46). -/
def get_item_cache (db : Db) (now : ℚ) (market_hash : String) : Option ℚ :=
  match db.itemPrices market_hash with
  | some pe => if now < pe.2 then some pe.1 else none
  | none => none

/-- `set_item_cache(db, market_hash, price, ttl=3600)` (lines 48-54). -/
def set_item_cache (db : Db) (now : ℚ) (market_hash : String) (price : ℚ) (ttl : ℚ) : Db :=
  { db with itemPrices := fun k => if k = market_hash then some (price, now + ttl) else db.itemPrices k }

/-- Process configuration: whether `CSFLOAT_API_KEY` is set (line 14); its
mere presence selects the pricing source, process-wide. -/
structure Config where
  hasKey : Bool

/-- The environment one call to `get_item_price` may consume: an outcome
stream for each price endpoint and the value sampled by
`random.uniform(0.3, 0.8)` for the jitter sleep. -/
structure PriceWorld where
  cs : ℕ → RawOutcome CsJson
  sm : ℕ → RawOutcome SteamJson
  jitter : ℚ

/-- `get_item_price(market_hash, db)` (lines 113-126): cache-aside. On a hit
returns the cached price with no effects; on a miss fetches from CSFloat or
Steam Market depending on the credential, unconditionally writes the result
to the item cache (ttl 3600), then sleeps the jitter. Returns
(price, new db, effect trace). -/
def get_item_price (cfg : Config) (pw : PriceWorld) (market_hash : String)
    (db : Db) (now : ℚ) : ℚ × Db × List Effect :=
  match get_item_cache db now market_hash with
  | some p => (p, db, [])
  | none =>
    let pr := if cfg.hasKey then get_csfloat_price pw.cs else get_steam_market_price pw.sm
    (pr.1, set_item_cache db now market_hash pr.1 3600, pr.2 ++ [Effect.jitter pw.jitter])

/-- Round-half-to-even on rationals, the rounding Python's `round` uses. -/
def roundHalfEven (q : ℚ) : ℤ :=
  let f := ⌊q⌋
  let r := q - f
  if r < 1 / 2 then f
  else if 1 / 2 < r then f + 1
  else if f % 2 = 0 then f else f + 1

/-- Python `round(x, 2)` on an exact decimal. -/
def round2 (q : ℚ) : ℚ :=
  (roundHalfEven (q * 100) : ℚ) / 100

/-- One entry of the inventory `descriptions` array: its optional
`market_hash_name` field. -/
structure InvItem where
  market_hash_name : Option String
deriving DecidableEq

/-- Parsed JSON body of the Steam inventory endpoint: the optional
`descriptions` key (absent also covers a falsy/empty response object). -/
structure InvJson where
  descriptions : Option (List InvItem)
deriving DecidableEq

/-- The successful JSON response of the `/value` route. `source` and `items`
are `none` when the corresponding key is absent from the response dict:
the cache-hit response (line 144) carries neither. -/
structure ValueOk where
  steamid : String
  total : ℚ
  cached : Bool
  source : Option String
  items : Option (List (String × ℚ))
deriving DecidableEq

/-- Response of the `/value` route: an error JSON with an HTTP status code,
or a success payload. -/
inductive ValueResp
  | err (msg : String) (code : ℕ)
  | ok (r : ValueOk)
deriving DecidableEq

/-- Stable insertion into a descending-by-price list: an element is placed
before the first strictly-smaller price, after equal ones. -/
def insertDesc (x : String × ℚ) : List (String × ℚ) → List (String × ℚ)
  | [] => [x]
  | y :: ys => if y.2 ≤ x.2 then x :: y :: ys else y :: insertDesc x ys

/-- `sorted(item_details, key=..., reverse=True)` (line 182): a stable sort
descending by price. -/
def sortDesc : List (String × ℚ) → List (String × ℚ)
  | [] => []
  | x :: xs => insertDesc x (sortDesc xs)

/-- The per-item loop of the route (lines 159-170): skip entries with a falsy
`market_hash_name`, otherwise resolve the price (threading the db), add it to
the running total, and if detailed record (name, rounded price). `i` indexes
the oracle `pws` per iteration. Returns (total, details, db, effects). -/
def valueLoop (cfg : Config) (det : Bool) (pws : ℕ → PriceWorld) (now : ℚ) :
    List InvItem → ℕ → ℚ → List (String × ℚ) → Db → ℚ × List (String × ℚ) × Db × List Effect
  | [], _, total, dets, db => (total, dets, db, [])
  | it :: rest, i, total, dets, db =>
    match it.market_hash_name with
    | none => valueLoop cfg det pws now rest (i + 1) total dets db
    | some h =>
      if h = "" then valueLoop cfg det pws now rest (i + 1) total dets db
      else
        let r := get_item_price cfg (pws i) h db now
        let dets2 := if det then dets ++ [(h, round2 r.1)] else dets
        let res := valueLoop cfg det pws now rest (i + 1) (total + r.1) dets2 r.2.1
        (res.1, res.2.1, res.2.2.1, r.2.2 ++ res.2.2.2)

/-- The recomputation path of the route (lines 146-184): fetch the inventory,
surface 502 on a missing/unusable payload and 404 on an empty item list,
otherwise run the per-item loop, write the unrounded total to the valuation
cache (ttl 300), and assemble the fresh response with the rounded total, the
source name, and, if detailed, the sorted item list. -/
def valueCompute (cfg : Config) (steamid : String) (detailed : Bool) (db : Db)
    (now : ℚ) (invW : ℕ → RawOutcome InvJson) (pws : ℕ → PriceWorld) :
    ValueResp × Db × List Effect :=
  let iv := safe_request Site.inventory invW 3 (3 / 2)
  match iv.1 with
  | none => (.err "Failed to fetch inventory" 502, db, iv.2)
  | some j =>
    match j.descriptions with
    | none => (.err "Failed to fetch inventory" 502, db, iv.2)
    | some items =>
      match items with
      | [] => (.err "No items found" 404, db, iv.2)
      | _ :: _ =>
        let L := valueLoop cfg detailed pws now items 0 0 [] db
        let db2 := set_cached_value L.2.2.1 now steamid L.1 300
        (ValueResp.ok
          { steamid := steamid
            total := round2 L.1
            cached := false
            source := some (if cfg.hasKey then "CSFloat" else "Steam Market")
            items := if detailed then some (sortDesc L.2.1) else none },
          db2, iv.2 ++ L.2.2.2)

/-- The `/value` route from the point the steamid is known (lines 138-184):
if the valuation cache holds a fresh total and `detailed` is false, answer
from the cache (response has only steamid/total/cached, no source, no items,
and no effects occur); otherwise recompute. -/
def value (cfg : Config) (steamid : String) (detailed : Bool) (db : Db)
    (now : ℚ) (invW : ℕ → RawOutcome InvJson) (pws : ℕ → PriceWorld) :
    ValueResp × Db × List Effect :=
  match get_cached_value db now steamid, detailed with
  | some cached, false =>
    (ValueResp.ok
      { steamid := steamid, total := cached, cached := true, source := none, items := none },
      db, [])
  | _, _ => valueCompute cfg steamid detailed db now invW pws

/-! ## Helper lemmas -/

lemma range_three : List.range 3 = [0, 1, 2] := rfl

lemma tryBody_eq_ret {α : Type} {o : RawOutcome α} {p : α}
    (h : tryBody o = .ok (.ret p)) : o = .resp 200 (some p) := by
  cases o with
  | getRaises => simp [tryBody] at h
  | resp s b =>
    by_cases h200 : s = 200
    · cases b with
      | none => simp [tryBody, h200] at h
      | some q => simp [tryBody, h200] at h; simp [h200, h]
    · by_cases h429 : s = 429 <;> simp [tryBody, h200, h429] at h

lemma safeRequestLoop_no_error {α : Type} (site : Site) (w : ℕ → RawOutcome α) (b : ℚ) :
    ∀ ks : List ℕ, ∃ v effs,
      safeRequestLoop site w b exceptClauseCatches ks = (Except.ok v, effs) := by
  intro ks
  induction ks with
  | nil => exact ⟨none, [], rfl⟩
  | cons k rest ih =>
    obtain ⟨v, effs, h⟩ := ih
    cases htb : tryBody (w k) with
    | error e =>
      exact ⟨v, .http site :: .sleep (b * ((k : ℚ) + 1)) :: effs,
        by simp [safeRequestLoop, htb, exceptClauseCatches, h]⟩
    | ok c =>
      cases c with
      | ret p => exact ⟨some p, [.http site], by simp [safeRequestLoop, htb]⟩
      | brk => exact ⟨none, [.http site], by simp [safeRequestLoop, htb]⟩
      | continueRetry =>
        exact ⟨v, .http site :: .sleep (b * ((k : ℚ) + 1)) :: effs,
          by simp [safeRequestLoop, htb, h]⟩

lemma safe_request_effs {α : Type} (site : Site) (w : ℕ → RawOutcome α) (n : ℕ) (b : ℚ) :
    (safe_request site w n b).2 =
      (safeRequestLoop site w b exceptClauseCatches (List.range n)).2 := by
  rcases h : safeRequestLoop site w b exceptClauseCatches (List.range n) with ⟨res, effs⟩
  cases res <;> simp [safe_request, h]

lemma safe_request_fst_some {α : Type} {site : Site} {w : ℕ → RawOutcome α} {n : ℕ} {b : ℚ}
    {p : α} (h : (safe_request site w n b).1 = some p) :
    (safeRequestLoop site w b exceptClauseCatches (List.range n)).1 = Except.ok (some p) := by
  rcases hL : safeRequestLoop site w b exceptClauseCatches (List.range n) with ⟨res, effs⟩
  cases res with
  | error e => simp [safe_request, hL] at h
  | ok v => simp [safe_request, hL] at h; simp [h]

lemma safeRequestLoop_payload_src {α : Type} {site : Site} {w : ℕ → RawOutcome α} {b : ℚ}
    {cat : PyExn → Bool} {p : α} :
    ∀ ks : List ℕ, (safeRequestLoop site w b cat ks).1 = Except.ok (some p) →
      ∃ k, w k = .resp 200 (some p) := by
  intro ks
  induction ks with
  | nil => intro h; simp [safeRequestLoop] at h
  | cons k rest ih =>
    intro h
    cases htb : tryBody (w k) with
    | error e =>
      by_cases hc : cat e
      · simp [safeRequestLoop, htb, hc] at h
        exact ih h
      · simp [safeRequestLoop, htb, hc] at h
    | ok c =>
      cases c with
      | ret q =>
        simp [safeRequestLoop, htb] at h
        exact ⟨k, by rw [tryBody_eq_ret htb, h]⟩
      | brk => simp [safeRequestLoop, htb] at h
      | continueRetry =>
        simp [safeRequestLoop, htb] at h
        exact ih h

lemma safe_request_payload_src {α : Type} {site : Site} {w : ℕ → RawOutcome α} {n : ℕ} {b : ℚ}
    {p : α} (h : (safe_request site w n b).1 = some p) :
    ∃ k, w k = .resp 200 (some p) :=
  safeRequestLoop_payload_src _ (safe_request_fst_some h)

lemma safeRequestLoop_http_mem {α : Type} (site : Site) (w : ℕ → RawOutcome α) (b : ℚ)
    (cat : PyExn → Bool) (k : ℕ) (rest : List ℕ) :
    Effect.http site ∈ (safeRequestLoop site w b cat (k :: rest)).2 := by
  cases htb : tryBody (w k) with
  | error e => by_cases hc : cat e <;> simp [safeRequestLoop, htb, hc]
  | ok c => cases c <;> simp [safeRequestLoop, htb]

lemma safe_request_http_mem {α : Type} (site : Site) (w : ℕ → RawOutcome α) (b : ℚ) :
    Effect.http site ∈ (safe_request site w 3 b).2 := by
  rw [safe_request_effs, range_three]
  exact safeRequestLoop_http_mem site w b exceptClauseCatches 0 [1, 2]

lemma valueCompute_http_mem (cfg : Config) (sid : String) (det : Bool) (db : Db) (now : ℚ)
    (invW : ℕ → RawOutcome InvJson) (pws : ℕ → PriceWorld) :
    Effect.http Site.inventory ∈ (valueCompute cfg sid det db now invW pws).2.2 := by
  have hm := safe_request_http_mem Site.inventory invW (3 / 2)
  cases h1 : (safe_request Site.inventory invW 3 (3 / 2)).1 with
  | none => simpa [valueCompute, h1] using hm
  | some j =>
    cases h2 : j.descriptions with
    | none => simpa [valueCompute, h1, h2] using hm
    | some items =>
      cases items with
      | nil => simpa [valueCompute, h1, h2] using hm
      | cons a rest =>
        simp only [valueCompute, h1, h2]
        exact List.mem_append_left _ hm

/-! ## Claims -/

/-- C1: for every valuation request where the valuation cache holds a fresh
total for the user and the detailed flag is false, `value` returns that
cached total with the cache-hit flag true, and produces no effects at all —
in particular no inventory retrieval and no upstream price calls. -/
theorem C1_cache_hit_short_circuits (cfg : Config) (steamid : String) (db : Db)
    (now v : ℚ) (invW : ℕ → RawOutcome InvJson) (pws : ℕ → PriceWorld)
    (h : get_cached_value db now steamid = some v) :
    value cfg steamid false db now invW pws =
      (ValueResp.ok
        { steamid := steamid, total := v, cached := true, source := none, items := none },
        db, []) := by
  simp [value, h]

/-- Shared concrete material for witnesses: a process without a CSFloat key,
one with a key, an empty database, and inert oracles. -/
def cfg0 : Config := ⟨false⟩

def cfg1 : Config := ⟨true⟩

def dbEmpty : Db := ⟨fun _ => none, fun _ => none⟩

def invNone : ℕ → RawOutcome InvJson := fun _ => .getRaises

def pwNone : PriceWorld := ⟨fun _ => .getRaises, fun _ => .getRaises, 1 / 2⟩

def dbHit1 : Db := ⟨fun _ => none, fun k => if k = "u" then some (5, 100) else none⟩

/-- Witness for C1 at a concrete fresh cache entry. -/
theorem C1_witness :
    value cfg0 "u" false dbHit1 0 invNone (fun _ => pwNone) =
      (ValueResp.ok
        { steamid := "u", total := 5, cached := true, source := none, items := none },
        dbHit1, []) :=
  C1_cache_hit_short_circuits cfg0 "u" dbHit1 0 5 invNone (fun _ => pwNone)
    (by norm_num [get_cached_value, dbHit1])

/-- The response sequence of C3: 429 on the first two attempts, then 200. -/
def w429 {α : Type} (p : α) : ℕ → RawOutcome α :=
  fun k => if k < 2 then .resp 429 none else .resp 200 (some p)

/-- C3: on the sequence [429, 429, 200] the fetch wrapper performs exactly 3
attempts, sleeps `backoff * 1` then `backoff * 2` between them (the linear
schedule, non-decreasing for a non-negative base delay), and returns the 200
payload. -/
theorem C3_rate_limit_linear_backoff {α : Type} (site : Site) (b : ℚ) (p : α)
    (hb : 0 ≤ b) :
    safe_request site (w429 p) 3 b =
      (some p, [.http site, .sleep (b * 1), .http site, .sleep (b * 2), .http site]) ∧
    (safe_request site (w429 p) 3 b).2.countP Effect.isHttp = 3 ∧
    b * 1 ≤ b * 2 := by
  have htrace : safe_request site (w429 p) 3 b =
      (some p, [.http site, .sleep (b * 1), .http site, .sleep (b * 2), .http site]) := by
    norm_num [safe_request, range_three, safeRequestLoop, tryBody, w429, exceptClauseCatches]
  refine ⟨htrace, ?_, ?_⟩
  · rw [htrace]
    simp [List.countP, List.countP.go, Effect.isHttp]
  · nlinarith

/-- Witness for C3 at the default base delay 1.5 and a CSFloat payload. -/
theorem C3_witness :
    safe_request Site.csfloat (w429 CsJson.notList) 3 (3 / 2) =
      (some CsJson.notList,
        [.http Site.csfloat, .sleep (3 / 2 * 1), .http Site.csfloat,
          .sleep (3 / 2 * 2), .http Site.csfloat]) ∧
    (safe_request Site.csfloat (w429 CsJson.notList) 3 (3 / 2)).2.countP Effect.isHttp = 3 ∧
    (3 / 2 : ℚ) * 1 ≤ 3 / 2 * 2 :=
  C3_rate_limit_linear_backoff Site.csfloat (3 / 2) CsJson.notList (by norm_num)

/-- C4: any first-attempt status that is neither 200 nor 429 makes the fetch
wrapper abort at once: one single attempt, no sleep, failure result. -/
theorem C4_non_retryable_aborts {α : Type} (site : Site) (w : ℕ → RawOutcome α)
    (b : ℚ) (c : ℕ) (body : Option α) (hw : w 0 = .resp c body)
    (h200 : c ≠ 200) (h429 : c ≠ 429) :
    safe_request site w 3 b = (none, [.http site]) := by
  norm_num [safe_request, range_three, safeRequestLoop, tryBody, hw, h200, h429]

/-- The response sequence of C4: an immediate 404. -/
def w404 {α : Type} : ℕ → RawOutcome α := fun _ => .resp 404 none

/-- Witness for C4 on the sequence [404]. -/
theorem C4_witness :
    safe_request Site.inventory (w404 (α := InvJson)) 3 (3 / 2) =
      (none, [.http Site.inventory]) :=
  C4_non_retryable_aborts Site.inventory w404 (3 / 2) 404 none rfl
    (by norm_num) (by norm_num)

/-- C7: the fetch wrapper never raises past its boundary: for every call site,
attempt budget, base delay and outcome stream (transport failures, malformed
200-bodies, arbitrary statuses included), the exception-transparent loop ends
in `Except.ok`, and `safe_request` returns the payload-or-`none` it carries. -/
theorem C7_never_raises {α : Type} (site : Site) (w : ℕ → RawOutcome α)
    (retries : ℕ) (b : ℚ) :
    ∃ v effs,
      safeRequestLoop site w b exceptClauseCatches (List.range retries) =
        (Except.ok v, effs) ∧
      safe_request site w retries b = (v, effs) := by
  obtain ⟨v, effs, h⟩ := safeRequestLoop_no_error site w b (List.range retries)
  exact ⟨v, effs, h, by simp [safe_request, h]⟩

/-- C2: `get_item_price` is idempotent with respect to the item cache. On a
hit it returns the cached price with an empty effect trace (no external call,
no jitter sleep). After a cold resolution, a second resolution of the same
key while the written entry is still fresh returns the identical price, the
unchanged database, and an empty trace. On a miss, the trace is exactly the
chosen fetcher's trace followed by the single jitter sleep — so the jitter
occurs only on a genuine external fetch. -/
theorem C2_resolve_price_idempotent :
    (∀ (cfg : Config) (pw : PriceWorld) (h : String) (db : Db) (now p : ℚ),
      get_item_cache db now h = some p →
        get_item_price cfg pw h db now = (p, db, [])) ∧
    (∀ (cfg : Config) (pw pw2 : PriceWorld) (h : String) (db : Db) (now now' : ℚ),
      get_item_cache db now h = none → now' < now + 3600 →
        get_item_price cfg pw2 h (get_item_price cfg pw h db now).2.1 now' =
          ((get_item_price cfg pw h db now).1,
            (get_item_price cfg pw h db now).2.1, [])) ∧
    (∀ (cfg : Config) (pw : PriceWorld) (h : String) (db : Db) (now : ℚ),
      get_item_cache db now h = none →
        (get_item_price cfg pw h db now).2.2 =
          (if cfg.hasKey then get_csfloat_price pw.cs
            else get_steam_market_price pw.sm).2 ++ [Effect.jitter pw.jitter]) := by
  refine ⟨?_, ?_, ?_⟩
  · intro cfg pw h db now p hhit
    simp [get_item_price, hhit]
  · intro cfg pw pw2 h db now now' hmiss hfresh
    have hcold : get_item_price cfg pw h db now =
        ((if cfg.hasKey then get_csfloat_price pw.cs else get_steam_market_price pw.sm).1,
          set_item_cache db now h
            (if cfg.hasKey then get_csfloat_price pw.cs else get_steam_market_price pw.sm).1 3600,
          (if cfg.hasKey then get_csfloat_price pw.cs else get_steam_market_price pw.sm).2 ++
            [Effect.jitter pw.jitter]) := by
      simp only [get_item_price, hmiss]
    rw [hcold]
    have hwarm : get_item_cache
        (set_item_cache db now h
          (if cfg.hasKey then get_csfloat_price pw.cs else get_steam_market_price pw.sm).1 3600)
        now' h =
        some (if cfg.hasKey then get_csfloat_price pw.cs
          else get_steam_market_price pw.sm).1 := by
      simp [get_item_cache, set_item_cache, hfresh]
    simp [get_item_price, hwarm]
  · intro cfg pw h db now hmiss
    simp [get_item_price, hmiss]

/-- An item-price oracle whose Steam side quotes $0.004 (parses to 1/250). -/
def smW10 : ℕ → RawOutcome SteamJson :=
  fun _ => .resp 200 (some ⟨true, some (.parses (1 / 250)), none⟩)

def pw10 : PriceWorld := ⟨fun _ => .getRaises, smW10, 1 / 2⟩

def dbItem1 : Db := ⟨fun k => if k = "AK" then some (7, 100) else none, fun _ => none⟩

/-- Witness for C2: a concrete warm hit, a concrete cold-then-warm pair, and
a concrete miss trace. -/
theorem C2_witness :
    get_item_price cfg0 pwNone "AK" dbItem1 0 = (7, dbItem1, []) ∧
    get_item_price cfg0 pw10 "AK" (get_item_price cfg0 pw10 "AK" dbEmpty 0).2.1 5 =
      ((get_item_price cfg0 pw10 "AK" dbEmpty 0).1,
        (get_item_price cfg0 pw10 "AK" dbEmpty 0).2.1, []) ∧
    (get_item_price cfg0 pw10 "AK" dbEmpty 0).2.2 =
      (if cfg0.hasKey then get_csfloat_price pw10.cs
        else get_steam_market_price pw10.sm).2 ++ [Effect.jitter pw10.jitter] :=
  ⟨C2_resolve_price_idempotent.1 cfg0 pwNone "AK" dbItem1 0 7
      (by norm_num [get_item_cache, dbItem1]),
    C2_resolve_price_idempotent.2.1 cfg0 pw10 pw10 "AK" dbEmpty 0 5
      (by norm_num [get_item_cache, dbEmpty]) (by norm_num),
    C2_resolve_price_idempotent.2.2 cfg0 pw10 "AK" dbEmpty 0
      (by norm_num [get_item_cache, dbEmpty])⟩

/-- C6: a detailed request always bypasses the valuation cache: whatever the
cache holds, `value` with `detailed = true` is the full recomputation, and
its effect trace contains an inventory HTTP call. -/
theorem C6_detailed_bypasses_cache (cfg : Config) (sid : String) (db : Db) (now : ℚ)
    (invW : ℕ → RawOutcome InvJson) (pws : ℕ → PriceWorld) :
    value cfg sid true db now invW pws = valueCompute cfg sid true db now invW pws ∧
    Effect.http Site.inventory ∈ (value cfg sid true db now invW pws).2.2 := by
  have heq : value cfg sid true db now invW pws =
      valueCompute cfg sid true db now invW pws := by
    cases h : get_cached_value db now sid <;> simp [value, h]
  refine ⟨heq, ?_⟩
  rw [heq]
  exact valueCompute_http_mem cfg sid true db now invW pws

/-- The ways the CSFloat listings response can fail to carry a usable price:
absent payload, a non-list payload, an empty listings array, or a first
listing whose `price` field is missing or unparsable. -/
def CsNoUsable : Option CsJson → Prop := fun d =>
  d = none ∨ d = some .notList ∨ d = some (.jlist []) ∨
    ∃ l rest, d = some (.jlist (l :: rest)) ∧
      (l.price = none ∨ l.price = some .nonNumeric)

/-- C5: when the primary price source yields no usable data the resolved
price is 0; on every cache miss the resolved price — zero included — is
written into the item cache exactly like any other price; and price
unavailability never aborts a valuation: whenever the inventory fetch
succeeds with a non-empty item list, `value` answers successfully. -/
theorem C5_no_data_degrades_to_zero :
    (∀ w : ℕ → RawOutcome CsJson,
      CsNoUsable (safe_request Site.csfloat w 3 (3 / 2)).1 →
        (get_csfloat_price w).1 = 0) ∧
    (∀ (cfg : Config) (pw : PriceWorld) (h : String) (db : Db) (now : ℚ),
      get_item_cache db now h = none →
        ((get_item_price cfg pw h db now).2.1).itemPrices h =
          some ((get_item_price cfg pw h db now).1, now + 3600)) ∧
    (∀ (cfg : Config) (sid : String) (det : Bool) (db : Db) (now : ℚ)
      (invW : ℕ → RawOutcome InvJson) (pws : ℕ → PriceWorld)
      (j : InvJson) (items : List InvItem),
      (safe_request Site.inventory invW 3 (3 / 2)).1 = some j →
      j.descriptions = some items → items ≠ [] →
        ∃ r, (value cfg sid det db now invW pws).1 = ValueResp.ok r) := by
  refine ⟨?_, ?_, ?_⟩
  · intro w hno
    rcases hno with h | h | h | ⟨l, rest, h, hpr⟩ <;>
      simp only [get_csfloat_price, h]
    · rcases hpr with hpr | hpr <;> simp [hpr, Option.getD]
  · intro cfg pw h db now hmiss
    simp [get_item_price, hmiss, set_item_cache]
  · intro cfg sid det db now invW pws j items hinv hdesc hne
    have hcomp : ∃ r, (valueCompute cfg sid det db now invW pws).1 = ValueResp.ok r := by
      cases items with
      | nil => exact absurd rfl hne
      | cons a rest =>
        have hok : (valueCompute cfg sid det db now invW pws).1 = ValueResp.ok
            { steamid := sid
              total := round2 (valueLoop cfg det pws now (a :: rest) 0 0 [] db).1
              cached := false
              source := some (if cfg.hasKey then "CSFloat" else "Steam Market")
              items := if det then
                  some (sortDesc (valueLoop cfg det pws now (a :: rest) 0 0 [] db).2.1)
                else none } := by
          simp [valueCompute, hinv, hdesc]
        exact ⟨_, hok⟩
    cases hc : get_cached_value db now sid with
    | none => simpa [value, hc] using hcomp
    | some c =>
      cases det with
      | true => simpa [value, hc] using hcomp
      | false =>
        refine ⟨⟨sid, c, true, none, none⟩, ?_⟩
        simp [value, hc]

/-- A CSFloat oracle answering with an empty listings array. -/
def wCsEmpty : ℕ → RawOutcome CsJson := fun _ => .resp 200 (some (.jlist []))

/-- An inventory oracle with a single priced item named AK-47. -/
def invW10 : ℕ → RawOutcome InvJson := fun _ => .resp 200 (some ⟨some [⟨some "AK-47"⟩]⟩)

/-- Witness for C5: an empty listings array resolves to price 0, a concrete
miss writes the resolved price into the cache, and a concrete valuation with
such an inventory answers successfully. -/
theorem C5_witness :
    (get_csfloat_price wCsEmpty).1 = 0 ∧
    ((get_item_price cfg1 ⟨wCsEmpty, fun _ => .getRaises, 1 / 2⟩ "AK" dbEmpty 0).2.1).itemPrices "AK" =
      some ((get_item_price cfg1 ⟨wCsEmpty, fun _ => .getRaises, 1 / 2⟩ "AK" dbEmpty 0).1, 0 + 3600) ∧
    (∃ r, (value cfg0 "u1" false dbEmpty 0 invW10 (fun _ => pw10)).1 = ValueResp.ok r) :=
  ⟨C5_no_data_degrades_to_zero.1 wCsEmpty
      (by right; right; left
          norm_num [safe_request, range_three, safeRequestLoop, tryBody, wCsEmpty,
            exceptClauseCatches]),
    C5_no_data_degrades_to_zero.2.1 cfg1 ⟨wCsEmpty, fun _ => .getRaises, 1 / 2⟩ "AK" dbEmpty 0
      (by norm_num [get_item_cache, dbEmpty]),
    C5_no_data_degrades_to_zero.2.2 cfg0 "u1" false dbEmpty 0 invW10 (fun _ => pw10)
      ⟨some [⟨some "AK-47"⟩]⟩ [⟨some "AK-47"⟩]
      (by norm_num [safe_request, range_three, safeRequestLoop, tryBody, invW10,
        exceptClauseCatches])
      rfl (by simp)⟩

lemma valueCompute_ok_fields (cfg : Config) (sid : String) (det : Bool) (db : Db)
    (now : ℚ) (invW : ℕ → RawOutcome InvJson) (pws : ℕ → PriceWorld) (r : ValueOk)
    (db2 : Db) (effs : List Effect)
    (h : valueCompute cfg sid det db now invW pws = (ValueResp.ok r, db2, effs)) :
    r.steamid = sid ∧ r.cached = false ∧
      r.source = some (if cfg.hasKey then "CSFloat" else "Steam Market") := by
  cases h1 : (safe_request Site.inventory invW 3 (3 / 2)).1 with
  | none => simp [valueCompute, h1] at h
  | some j =>
    cases h2 : j.descriptions with
    | none => simp [valueCompute, h1, h2] at h
    | some items =>
      cases items with
      | nil => simp [valueCompute, h1, h2] at h
      | cons a rest =>
        simp only [valueCompute, h1, h2] at h
        obtain ⟨h3, -, -⟩ := Prod.mk.injEq .. ▸ h
        cases ValueResp.ok.injEq .. ▸ h3.symm
        simp

/-- A valuation cache holding a fresh total of 7 for user u9. -/
def dbHit9 : Db := ⟨fun _ => none, fun k => if k = "u9" then some (7, 50) else none⟩

/-- C9 counterexample: a concrete successful response served from the
valuation cache carries no pricing source at all — refuting the claim that
every successful result includes the source used. -/
theorem C9_counterexample :
    (value cfg0 "u9" false dbHit9 0 invNone (fun _ => pwNone)).1 =
      ValueResp.ok
        { steamid := "u9", total := 7, cached := true, source := none, items := none } ∧
    ValueOk.source
        { steamid := "u9", total := 7, cached := true, source := none, items := none } =
      none := by
  constructor
  · norm_num [value, get_cached_value, dbHit9]
  · rfl

/-- C9 amended: every successful ValuationResult carries the user key, total
and cache-hit flag; a freshly computed one also carries the pricing source
(CSFloat when the credential is configured, Steam Market otherwise), while a
cache-served one carries no source field. -/
theorem C9_source_only_on_fresh (cfg : Config) (sid : String) (det : Bool) (db : Db)
    (now : ℚ) (invW : ℕ → RawOutcome InvJson) (pws : ℕ → PriceWorld) (r : ValueOk)
    (db2 : Db) (effs : List Effect)
    (h : value cfg sid det db now invW pws = (ValueResp.ok r, db2, effs)) :
    r.steamid = sid ∧
    (r.cached = true → r.source = none) ∧
    (r.cached = false →
      r.source = some (if cfg.hasKey then "CSFloat" else "Steam Market")) := by
  rcases hc : get_cached_value db now sid with - | c
  · simp only [value, hc] at h
    obtain ⟨hs, hcf, hsrc⟩ := valueCompute_ok_fields cfg sid det db now invW pws r db2 effs h
    refine ⟨hs, ?_, fun _ => hsrc⟩
    intro ht
    rw [hcf] at ht
    cases ht
  · cases det with
    | true =>
      simp only [value, hc] at h
      obtain ⟨hs, hcf, hsrc⟩ := valueCompute_ok_fields cfg sid true db now invW pws r db2 effs h
      refine ⟨hs, ?_, fun _ => hsrc⟩
      intro ht
      rw [hcf] at ht
      cases ht
    | false =>
      simp only [value, hc] at h
      simp only [Prod.mk.injEq, ValueResp.ok.injEq] at h
      obtain ⟨h1, -, -⟩ := h
      subst h1
      exact ⟨rfl, fun _ => rfl, fun hf => by cases hf⟩

/-- Witness for C9's amended theorem, at a concrete cache-served response. -/
theorem C9_witness :
    ValueOk.steamid
        { steamid := "u9", total := 7, cached := true, source := none, items := none } = "u9" ∧
    (ValueOk.cached
        { steamid := "u9", total := 7, cached := true, source := none, items := none } = true →
      ValueOk.source
        { steamid := "u9", total := 7, cached := true, source := none, items := none } = none) ∧
    (ValueOk.cached
        { steamid := "u9", total := 7, cached := true, source := none, items := none } = false →
      ValueOk.source
        { steamid := "u9", total := 7, cached := true, source := none, items := none } =
        some (if cfg0.hasKey then "CSFloat" else "Steam Market")) :=
  C9_source_only_on_fresh cfg0 "u9" false dbHit9 0 invNone (fun _ => pwNone)
    { steamid := "u9", total := 7, cached := true, source := none, items := none }
    dbHit9 []
    (by norm_num [value, get_cached_value, dbHit9])

/-- The first, cold valuation of C10's scenario: one item quoted at $0.004. -/
def firstRun : ValueResp × Db × List Effect :=
  value cfg0 "u1" false dbEmpty 0 invW10 (fun _ => pw10)

/-- The second, cache-served valuation of C10's scenario, 5 time-units later. -/
def secondRun : ValueResp × Db × List Effect :=
  value cfg0 "u1" false firstRun.2.1 5 invW10 (fun _ => pw10)

/-- C10: on every computing run the valuation cache receives the unrounded
accumulated total while the response reports it rounded to 2 digits; and in
the concrete $0.004 scenario the later cache-hit response returns the stored
1/250, different from the 0 the computing response reported. -/
theorem C10_cache_stores_unrounded_total :
    (∀ (cfg : Config) (sid : String) (det : Bool) (db : Db) (now : ℚ)
      (invW : ℕ → RawOutcome InvJson) (pws : ℕ → PriceWorld)
      (j : InvJson) (items : List InvItem),
      (safe_request Site.inventory invW 3 (3 / 2)).1 = some j →
      j.descriptions = some items → items ≠ [] →
        ((valueCompute cfg sid det db now invW pws).2.1).inventoryValues sid =
          some ((valueLoop cfg det pws now items 0 0 [] db).1, now + 300) ∧
        (∃ r, (valueCompute cfg sid det db now invW pws).1 = ValueResp.ok r ∧
          r.total = round2 (valueLoop cfg det pws now items 0 0 [] db).1)) ∧
    (firstRun.1 = ValueResp.ok
        { steamid := "u1", total := 0, cached := false,
          source := some "Steam Market", items := none } ∧
      secondRun.1 = ValueResp.ok
        { steamid := "u1", total := 1 / 250, cached := true,
          source := none, items := none } ∧
      (1 / 250 : ℚ) ≠ 0) := by
  constructor
  · intro cfg sid det db now invW pws j items hinv hdesc hne
    cases items with
    | nil => exact absurd rfl hne
    | cons a rest =>
      have hok : (valueCompute cfg sid det db now invW pws).1 = ValueResp.ok
          { steamid := sid
            total := round2 (valueLoop cfg det pws now (a :: rest) 0 0 [] db).1
            cached := false
            source := some (if cfg.hasKey then "CSFloat" else "Steam Market")
            items := if det then
                some (sortDesc (valueLoop cfg det pws now (a :: rest) 0 0 [] db).2.1)
              else none } := by
        simp [valueCompute, hinv, hdesc]
      constructor
      · simp [valueCompute, hinv, hdesc, set_cached_value]
      · exact ⟨_, hok, rfl⟩
  · refine ⟨?_, ?_, by norm_num⟩
    · norm_num [firstRun, value, valueCompute, valueLoop, get_item_price, get_item_cache,
        get_cached_value, set_item_cache, set_cached_value, get_steam_market_price,
        safe_request, range_three, safeRequestLoop, tryBody, exceptClauseCatches, dbEmpty,
        smW10, pw10, invW10, cfg0, pyOr, pyTruthy, round2, roundHalfEven,
        (show ¬("AK-47" : String) = "" from by decide)]
    · norm_num [secondRun, firstRun, value, valueCompute, valueLoop, get_item_price,
        get_item_cache, get_cached_value, set_item_cache, set_cached_value,
        get_steam_market_price, safe_request, range_three, safeRequestLoop, tryBody,
        exceptClauseCatches, dbEmpty, smW10, pw10, invW10, cfg0, pyOr, pyTruthy, round2,
        roundHalfEven, (show ¬("AK-47" : String) = "" from by decide)]

/-- Witness for C10's universal part, at the concrete $0.004 scenario. -/
theorem C10_witness :
    ((valueCompute cfg0 "u1" false dbEmpty 0 invW10 (fun _ => pw10)).2.1).inventoryValues "u1" =
      some ((valueLoop cfg0 false (fun _ => pw10) 0 [⟨some "AK-47"⟩] 0 0 [] dbEmpty).1, 0 + 300) ∧
    (∃ r, (valueCompute cfg0 "u1" false dbEmpty 0 invW10 (fun _ => pw10)).1 = ValueResp.ok r ∧
      r.total = round2 (valueLoop cfg0 false (fun _ => pw10) 0 [⟨some "AK-47"⟩] 0 0 [] dbEmpty).1) :=
  (C10_cache_stores_unrounded_total.1 cfg0 "u1" false dbEmpty 0 invW10 (fun _ => pw10)
    ⟨some [⟨some "AK-47"⟩]⟩ [⟨some "AK-47"⟩]
    (by norm_num [safe_request, range_three, safeRequestLoop, tryBody, invW10,
      exceptClauseCatches])
    rfl (by simp))

/-- A CSFloat oracle quoting a negative minor-currency price of -50. -/
def pwNeg : PriceWorld :=
  ⟨fun _ => .resp 200 (some (.jlist [⟨some (.num (-50))⟩])), fun _ => .getRaises, 1 / 2⟩

/-- C8 counterexample: a CSFloat payload carrying price -50 makes the
resolver write the negative price -1/2 into the item cache — refuting the
claim that every written price is non-negative for every possible payload. -/
theorem C8_counterexample :
    ((get_item_price cfg1 pwNeg "AK" dbEmpty 0).2.1).itemPrices "AK" =
      some (-(1 / 2), 3600) ∧
    ¬ (0 : ℚ) ≤ -(1 / 2) := by
  constructor
  · norm_num [get_item_price, get_item_cache, set_item_cache, get_csfloat_price,
      safe_request, range_three, safeRequestLoop, tryBody, exceptClauseCatches,
      pwNeg, cfg1, dbEmpty]
  · norm_num

/-- Every price value carried by a CSFloat attempt outcome is non-negative. -/
def CsOutcomeNonneg : RawOutcome CsJson → Prop
  | .resp _ (some (.jlist l)) =>
      ∀ it ∈ l, ∀ q : ℚ, it.price = some (.num q) → 0 ≤ q
  | _ => True

/-- Every price string carried by a Steam attempt outcome parses, if at all,
to a non-negative value. -/
def SmOutcomeNonneg : RawOutcome SteamJson → Prop
  | .resp _ (some j) =>
      ∀ q : ℚ, pyOr j.lowest_price j.median_price = some (.parses q) → 0 ≤ q
  | _ => True

/-- A price world whose payloads only carry non-negative values. -/
def PwNonneg (pw : PriceWorld) : Prop :=
  (∀ k, CsOutcomeNonneg (pw.cs k)) ∧ (∀ k, SmOutcomeNonneg (pw.sm k))

/-- Both database tables hold only non-negative amounts. -/
def DbNonneg (db : Db) : Prop :=
  (∀ (k : String) (p e : ℚ), db.itemPrices k = some (p, e) → 0 ≤ p) ∧
  (∀ (k : String) (v e : ℚ), db.inventoryValues k = some (v, e) → 0 ≤ v)

lemma get_csfloat_price_nonneg {w : ℕ → RawOutcome CsJson}
    (hw : ∀ k, CsOutcomeNonneg (w k)) : 0 ≤ (get_csfloat_price w).1 := by
  cases hd : (safe_request Site.csfloat w 3 (3 / 2)).1 with
  | none => simp [get_csfloat_price, hd]
  | some d =>
    cases d with
    | notList => simp [get_csfloat_price, hd]
    | jlist l =>
      cases l with
      | nil => simp [get_csfloat_price, hd]
      | cons it rest =>
        obtain ⟨k, hk⟩ := safe_request_payload_src hd
        have hkn := hw k
        rw [hk] at hkn
        cases hp : it.price with
        | none => simp [get_csfloat_price, hd, hp, Option.getD]
        | some v =>
          cases v with
          | nonNumeric => simp [get_csfloat_price, hd, hp, Option.getD]
          | num q =>
            have hq : 0 ≤ q := hkn it (List.mem_cons_self it rest) q hp
            simp only [get_csfloat_price, hd, hp, Option.getD]
            positivity

lemma get_steam_market_price_nonneg {w : ℕ → RawOutcome SteamJson}
    (hw : ∀ k, SmOutcomeNonneg (w k)) : 0 ≤ (get_steam_market_price w).1 := by
  cases hd : (safe_request Site.steamMarket w 3 (3 / 2)).1 with
  | none => simp [get_steam_market_price, hd]
  | some d =>
    cases hs : d.success with
    | false => simp [get_steam_market_price, hd, hs]
    | true =>
      obtain ⟨k, hk⟩ := safe_request_payload_src hd
      have hkn := hw k
      rw [hk] at hkn
      cases hor : pyOr d.lowest_price d.median_price with
      | none => simp [get_steam_market_price, hd, hs, hor]
      | some v =>
        cases v with
        | empty => simp [get_steam_market_price, hd, hs, hor]
        | noparse => simp [get_steam_market_price, hd, hs, hor]
        | parses q =>
          have hq : 0 ≤ q := hkn q hor
          simp [get_steam_market_price, hd, hs, hor, hq]

lemma get_item_cache_some {db : Db} {now p : ℚ} {h : String}
    (hc : get_item_cache db now h = some p) : ∃ e, db.itemPrices h = some (p, e) := by
  rcases hd : db.itemPrices h with - | pe
  · simp [get_item_cache, hd] at hc
  · simp only [get_item_cache, hd] at hc
    by_cases ht : now < pe.2
    · rw [if_pos ht] at hc
      have hp : pe.1 = p := Option.some_inj.mp hc
      exact ⟨pe.2, by rw [← hp]⟩
    · rw [if_neg ht] at hc
      cases hc

lemma get_item_price_nonneg_inv (cfg : Config) (pw : PriceWorld) (h : String)
    (db : Db) (now : ℚ) (hdb : DbNonneg db) (hpw : PwNonneg pw) :
    0 ≤ (get_item_price cfg pw h db now).1 ∧
      DbNonneg (get_item_price cfg pw h db now).2.1 := by
  have hfetch : 0 ≤ (if cfg.hasKey then get_csfloat_price pw.cs
      else get_steam_market_price pw.sm).1 := by
    by_cases hk : cfg.hasKey
    · simpa [hk] using get_csfloat_price_nonneg hpw.1
    · simpa [hk] using get_steam_market_price_nonneg hpw.2
  cases hc : get_item_cache db now h with
  | some p =>
    obtain ⟨e, he⟩ := get_item_cache_some hc
    refine ⟨?_, ?_⟩
    · simpa [get_item_price, hc] using hdb.1 h p e he
    · simpa [get_item_price, hc] using hdb
  | none =>
    refine ⟨by simpa [get_item_price, hc] using hfetch, ?_⟩
    simp only [get_item_price, hc]
    constructor
    · intro k p e
      simp only [set_item_cache]
      by_cases hkh : k = h
      · rw [if_pos hkh]
        intro hsome
        obtain ⟨h1, -⟩ := Prod.mk.injEq .. ▸ Option.some_inj.mp hsome
        rw [← h1]
        exact hfetch
      · rw [if_neg hkh]
        exact hdb.1 k p e
    · intro k v e
      simpa [set_item_cache] using hdb.2 k v e

lemma valueLoop_nonneg_inv (cfg : Config) (det : Bool) (pws : ℕ → PriceWorld)
    (now : ℚ) (hpws : ∀ j, PwNonneg (pws j)) :
    ∀ (items : List InvItem) (i : ℕ) (total : ℚ) (dets : List (String × ℚ)) (db : Db),
      0 ≤ total → DbNonneg db →
        0 ≤ (valueLoop cfg det pws now items i total dets db).1 ∧
          DbNonneg (valueLoop cfg det pws now items i total dets db).2.2.1 := by
  intro items
  induction items with
  | nil => intro i total dets db ht hdb; simpa [valueLoop] using ⟨ht, hdb⟩
  | cons it rest ih =>
    intro i total dets db ht hdb
    cases hname : it.market_hash_name with
    | none => simpa [valueLoop, hname] using ih (i + 1) total dets db ht hdb
    | some h =>
      by_cases hemp : h = ""
      · simpa [valueLoop, hname, hemp] using ih (i + 1) total dets db ht hdb
      · obtain ⟨hp, hdb2⟩ := get_item_price_nonneg_inv cfg (pws i) h db now hdb (hpws i)
        have := ih (i + 1) (total + (get_item_price cfg (pws i) h db now).1)
          (if det then dets ++ [(h, round2 (get_item_price cfg (pws i) h db now).1)] else dets)
          (get_item_price cfg (pws i) h db now).2.1 (by positivity) hdb2
        simpa [valueLoop, hname, hemp] using this

/-- C8 amended: provided every price value carried by the upstream payloads
is non-negative and both cache tables already hold only non-negative
amounts, every amount a valuation run writes — item prices and the user
total alike — is non-negative: `value` preserves `DbNonneg`. -/
theorem C8_nonneg_invariant (cfg : Config) (sid : String) (det : Bool) (db : Db)
    (now : ℚ) (invW : ℕ → RawOutcome InvJson) (pws : ℕ → PriceWorld)
    (hdb : DbNonneg db) (hpws : ∀ j, PwNonneg (pws j)) :
    DbNonneg ((value cfg sid det db now invW pws).2.1) := by
  have hcomp : DbNonneg ((valueCompute cfg sid det db now invW pws).2.1) := by
    cases h1 : (safe_request Site.inventory invW 3 (3 / 2)).1 with
    | none => simpa [valueCompute, h1] using hdb
    | some j =>
      cases h2 : j.descriptions with
      | none => simpa [valueCompute, h1, h2] using hdb
      | some items =>
        cases items with
        | nil => simpa [valueCompute, h1, h2] using hdb
        | cons a rest =>
          obtain ⟨hLt, hLdb⟩ := valueLoop_nonneg_inv cfg det pws now hpws
            (a :: rest) 0 0 [] db le_rfl hdb
          simp only [valueCompute, h1, h2]
          constructor
          · intro k p e
            simpa [set_cached_value] using hLdb.1 k p e
          · intro k v e
            simp only [set_cached_value]
            by_cases hks : k = sid
            · rw [if_pos hks]
              intro hsome
              obtain ⟨hv1, -⟩ := Prod.mk.injEq .. ▸ Option.some_inj.mp hsome
              rw [← hv1]
              exact hLt
            · rw [if_neg hks]
              exact hLdb.2 k v e
  cases hc : get_cached_value db now sid with
  | none => simpa [value, hc] using hcomp
  | some c =>
    cases det with
    | true => simpa [value, hc] using hcomp
    | false => simpa [value, hc] using hdb

/-- Witness for C8's amended invariant at a concrete non-negative world. -/
theorem C8_witness :
    DbNonneg ((value cfg0 "u1" false dbEmpty 0 invW10 (fun _ => pw10)).2.1) :=
  C8_nonneg_invariant cfg0 "u1" false dbEmpty 0 invW10 (fun _ => pw10)
    ⟨fun k p e hk => by simp [dbEmpty] at hk, fun k v e hk => by simp [dbEmpty] at hk⟩
    (fun j => ⟨fun k => by simp [pw10, CsOutcomeNonneg],
      fun k => by
        intro q hq
        simp [pw10, smW10, pyOr, pyTruthy] at hq
        rw [← hq]
        norm_num⟩)

end SteamApp
